import Mathlib

/-!
Shallow embedding of the key-value store's core (hash table with open
addressing and linear probing, plus the binary persistence codec) from
`src/hash_table.c` and `src/persistence.c`.

Modelling conventions:
* Machine integers: `size_t` arithmetic is `Nat` taken `% U64` where the C
  can wrap (increments, decrements, multiplications); `int` keys are `Int`
  restricted by the codec to two's-complement 32-bit range.
* C strings (`char*` values) are byte lists (`List Nat`); `strcpy`/`strlen`
  stop at the first 0 byte, modelled by `cstr`.  A `NULL` pointer is `none`.
* `malloc`/`calloc` results are driven by an explicit allocation oracle
  (`List Bool`, one entry consumed per allocation, exhausted = success),
  so allocation-failure paths (notably in `resize_table`) are expressible.
  The pure wrappers run with the empty oracle: every allocation succeeds.
* The global last-error channel is modelled per call: operations return the
  error value they set (`Option KvsError`, `none` = the call left the global
  error untouched, as `ht_set`'s success path does).
* The file is a byte list; `fread`/`fwrite` become list splitting.  Numbers
  are little-endian, matching the x86 host layout the format relies on.
* `ht_set` in the C source falls off the end of the function without a
  `return` on its success path; the model returns `true` there, which is the
  evident intent and what callers rely on.
-/

/-- Error codes from `error.h`. -/
inductive KvsError where
  | success
  | memory
  | keyNotFound
  | invalidParam
  | fileIo
  | corruption
  | unknown
deriving DecidableEq, Repr

/-- `#define DELETED_KEY (-2147483648)` from `hash_table.h`. -/
def DELETED_KEY : Int := -2147483648

/-- `#define DEFAULT_CAPACITY 16` from `hash_table.c`. -/
def DEFAULT_CAPACITY : Nat := 16

/-- `#define GROWTH_FACTOR 2` from `hash_table.c`. -/
def GROWTH_FACTOR : Nat := 2

/-- `2^64`, the modulus of `size_t` arithmetic. -/
def U64 : Nat := 2 ^ 64

/-- One slot of the table: `ht_entry_t` from `hash_table.h`
(`int key; char* value; bool occupied;`). -/
structure Entry where
  key : Int
  value : Option (List Nat)
  occupied : Bool
deriving DecidableEq, Repr

/-- A slot as `calloc` zero-initialises it: key 0, `NULL` value, not occupied. -/
def emptyEntry : Entry := ⟨0, none, false⟩

/-- `hash_table_t` from `hash_table.h`.  The `capacity` field of the C struct
always equals the length of the `entries` array (including on the restore
paths of `resize_table`), so it is modelled as the derived `capacity`. -/
structure Table where
  entries : List Entry
  size : Nat
  tombstones : Nat
deriving DecidableEq, Repr

/-- `table->capacity`: length of the slot array. -/
def capacity (t : Table) : Nat := t.entries.length

/-- `table->entries[i]` (the C indexes blindly; every index the code produces
is `< capacity`). -/
def entryAt (t : Table) (i : Nat) : Entry := t.entries.getD i emptyEntry

/-- `strlen`/`strcpy` view of a byte buffer as a C string: the bytes before
the first 0 byte. -/
def cstr (v : List Nat) : List Nat := v.takeWhile (fun b => !(b == 0))

/-- The two's-complement `uint32_t` view of an `int` value. -/
def to_u32 (k : Int) : Nat := (k % (4294967296 : Int)).toNat

/-- Little-endian bytes of a `uint32_t` value. -/
def u32_bytes (n : Nat) : List Nat :=
  [n % 256, n / 256 % 256, n / 65536 % 256, n / 16777216 % 256]

/-- Little-endian bytes of an `int` (two's complement), the host layout
`hash_key` and the codec read. -/
def i32_bytes (k : Int) : List Nat := u32_bytes (to_u32 k)

/-- `hash_key` from `hash_table.c`: FNV-1a over the four bytes of the key
(`uint32_t` accumulator, so each step is reduced `% 2^32`). -/
def hash_key (k : Int) : Nat :=
  (i32_bytes k).foldl (fun h b => ((h ^^^ b) * 16777619) % 4294967296) 2166136261

/-- Consume one allocation from the oracle.  An exhausted oracle means all
remaining allocations succeed. -/
def alloc_ok : List Bool → Bool × List Bool
  | [] => (true, [])
  | b :: r => (b, r)

/-- The probe loop of `find_slot` (`hash_table.c:52-76`): the do/while body,
running for at most the given number of steps (the full cycle is `capacity`
steps, after which the C loop exits because the index returned to the start).
The zero-steps case is the code after the loop (`hash_table.c:78-82`). -/
def find_slot_aux (t : Table) (k : Int) (for_insertion : Bool) :
    Nat → Nat → Option Nat → Option Nat
  | _, 0, first_tombstone => if for_insertion then first_tombstone else none
  | idx, steps + 1, first_tombstone =>
    let e := entryAt t idx
    if !e.occupied then
      if for_insertion && first_tombstone.isSome then first_tombstone else some idx
    else if e.key == DELETED_KEY then
      find_slot_aux t k for_insertion ((idx + 1) % capacity t) steps
        (if for_insertion && first_tombstone.isNone then some idx else first_tombstone)
    else if e.key == k then
      some idx
    else
      find_slot_aux t k for_insertion ((idx + 1) % capacity t) steps first_tombstone

/-- `find_slot` from `hash_table.c:43-83`; `none` models `SIZE_MAX`. -/
def find_slot (t : Table) (k : Int) (for_insertion : Bool) : Option Nat :=
  if capacity t = 0 then none
  else find_slot_aux t k for_insertion (hash_key k % capacity t) (capacity t) none

/-- The placement part of `ht_set` (`hash_table.c:191-217`): find the slot,
copy the value (one allocation), and update the slot and the counters.
Faithful to the source, this increments `size` unconditionally and tests
`entry->occupied && entry->key == key && entry->key != DELETED_KEY` before
decrementing `tombstones`. -/
def ht_place (t : Table) (k : Int) (v : List Nat) (alloc : List Bool) :
    Bool × Table × Option KvsError × List Bool :=
  match find_slot t k true with
  | none => (false, t, some .memory, alloc)
  | some idx =>
    let a := alloc_ok alloc
    if !a.1 then (false, t, some .memory, a.2)
    else
      let e := entryAt t idx
      let tombs :=
        if e.occupied && e.key == k && !(e.key == DELETED_KEY) then
          (t.tombstones + (U64 - 1)) % U64
        else t.tombstones
      (true,
       { entries := t.entries.set idx ⟨k, some (cstr v), true⟩
         size := (t.size + 1) % U64
         tombstones := tombs },
       none, a.2)

/-- The re-insertion loop of `resize_table` (`hash_table.c:114-131`),
parameterised by the insertion function (`ht_set` at the appropriate fuel).
On a failed re-insertion the C restores `entries` and `capacity` to the
originals but leaves `size` and `tombstones` at their partially rebuilt
values (`hash_table.c:117-124`); the model mirrors that exactly.  The
`free` of old value buffers is a no-op here. -/
def reinsert_go
    (setter : Table → Int → List Nat → List Bool → Bool × Table × Option KvsError × List Bool)
    (orig : List Entry) :
    List Entry → Table → List Bool → Bool × Table × Option KvsError × List Bool
  | [], t, s => (true, t, none, s)
  | e :: rest, t, s =>
    if e.occupied && !(e.key == DELETED_KEY) then
      match setter t e.key (e.value.getD []) s with
      | (true, t', _, s') => reinsert_go setter orig rest t' s'
      | (false, t', err, s') =>
        (false, { entries := orig, size := t'.size, tombstones := t'.tombstones }, err, s')
    else reinsert_go setter orig rest t s

/-- `resize_table` from `hash_table.c:89-135`, parameterised by the insertion
function.  One allocation for the new slot array (`calloc`); on its failure
the old array is restored and nothing else was touched. -/
def resize_table_go
    (setter : Table → Int → List Nat → List Bool → Bool × Table × Option KvsError × List Bool)
    (t : Table) (new_capacity : Nat) (s : List Bool) :
    Bool × Table × Option KvsError × List Bool :=
  if new_capacity ≤ capacity t then (false, t, none, s)
  else
    let a := alloc_ok s
    if !a.1 then (false, t, some .memory, a.2)
    else
      reinsert_go setter t.entries t.entries
        { entries := List.replicate new_capacity emptyEntry, size := 0, tombstones := 0 } a.2

/-- `ht_set` from `hash_table.c:176-217`, with fuel bounding the
`ht_set`/`resize_table` mutual recursion (one fuel unit per nesting level;
each level doubles the capacity, so any fuel ≥ 2 is beyond what executions
reach, and exhaustion simply reports failure).  The load-factor test models
`(double)(size + tombstones) / capacity >= 0.75` exactly for a non-zero
capacity; for `capacity = 0` the C divides by zero and every continuation
still returns `false` with the table unchanged, which the model also does.
The `NULL` table/value parameter checks have no counterpart for total
functions and are dropped; the sentinel-key rejection is kept. -/
def ht_setF : Nat → Table → Int → List Nat → List Bool →
    Bool × Table × Option KvsError × List Bool
  | 0, t, _, _, s => (false, t, none, s)
  | fuel + 1, t, k, v, s =>
    if k == DELETED_KEY then (false, t, some .invalidParam, s)
    else if 0 < capacity t ∧ 3 * capacity t ≤ 4 * ((t.size + t.tombstones) % U64) then
      match resize_table_go (ht_setF fuel) t (capacity t * GROWTH_FACTOR % U64) s with
      | (true, t1, _, s1) => ht_place t1 k v s1
      | (false, t1, err, s1) => (false, t1, err, s1)
    else ht_place t k v s

/-- Fuel used by the pure entry points; far beyond any reachable nesting. -/
def FUEL : Nat := 64

/-- `ht_set` with every allocation succeeding (the pure view used by the
claims that are not about allocation failure). -/
def ht_set (t : Table) (k : Int) (v : List Nat) : Bool × Table × Option KvsError :=
  let r := ht_setF FUEL t k v []
  (r.1, r.2.1, r.2.2.1)

/-- `resize_table` with an explicit allocation oracle. -/
def resize_table (t : Table) (new_capacity : Nat) (s : List Bool) :
    Bool × Table × Option KvsError × List Bool :=
  resize_table_go (ht_setF FUEL) t new_capacity s

/-- `ht_create` from `hash_table.c:141-169` (allocation failure not modelled:
claims never exercise it). -/
def ht_create (initial_capacity : Nat) : Table :=
  let c := if initial_capacity = 0 then DEFAULT_CAPACITY else initial_capacity
  { entries := List.replicate c emptyEntry, size := 0, tombstones := 0 }

/-- `ht_get` from `hash_table.c:223-245`: the returned pointer is the slot's
`value` field; the second component is the error the call sets. -/
def ht_get (t : Table) (k : Int) : Option (List Nat) × KvsError :=
  if k == DELETED_KEY then (none, .invalidParam)
  else
    match find_slot t k false with
    | none => (none, .keyNotFound)
    | some idx =>
      let e := entryAt t idx
      if !e.occupied || !(e.key == k) || e.key == DELETED_KEY then (none, .keyNotFound)
      else (e.value, .success)

/-- `ht_delete` from `hash_table.c:251-282`: tombstone the slot (key becomes
the sentinel, value freed, `occupied` stays true), `size--`, `tombstones++`. -/
def ht_delete (t : Table) (k : Int) : Bool × Table × KvsError :=
  if k == DELETED_KEY then (false, t, .invalidParam)
  else
    match find_slot t k false with
    | none => (false, t, .keyNotFound)
    | some idx =>
      let e := entryAt t idx
      if !e.occupied || !(e.key == k) || e.key == DELETED_KEY then (false, t, .keyNotFound)
      else
        (true,
         { entries := t.entries.set idx ⟨DELETED_KEY, none, true⟩
           size := (t.size + (U64 - 1)) % U64
           tombstones := (t.tombstones + 1) % U64 },
         .success)

/-- `ht_size` from `hash_table.c:288-294`. -/
def ht_size (t : Table) : Nat := t.size

/-- The condition of `ht_iterator_next` (`hash_table.c:334`): a slot the
iteration yields. -/
def is_live (e : Entry) : Bool := e.occupied && !(e.key == DELETED_KEY)

/-- Number of slots the iterator yields (occupied, non-tombstone). -/
def live_count (l : List Entry) : Nat := l.countP is_live

/-- Number of tombstone slots. -/
def tomb_count (l : List Entry) : Nat := l.countP (fun e => e.occupied && e.key == DELETED_KEY)

/-- Number of occupied slots (live or tombstone). -/
def occ_count (l : List Entry) : Nat := l.countP (·.occupied)

/-- `k` is the key of some live slot. -/
def live_has (t : Table) (k : Int) : Bool :=
  t.entries.any fun e => is_live e && e.key == k

/-- `#define KVS_MAGIC_NUMBER 0x4B565301` from `persistence.h`. -/
def KVS_MAGIC_NUMBER : Nat := 0x4B565301

/-- `#define KVS_FILE_VERSION 1` from `persistence.h`. -/
def KVS_FILE_VERSION : Nat := 1

/-- `kvs_save_to_file` from `persistence.c:22-81`, as the byte stream it
writes: 16-byte header (magic, version, `entry_count = (uint32_t)ht_size`,
reserved 0) then, in slot order, one record per live slot —
`(int key, uint32_t strlen(value), value bytes)`.  File-open and `fwrite`
failures belong to the I/O layer and are not modelled. -/
def kvs_save_to_file (t : Table) : List Nat :=
  u32_bytes KVS_MAGIC_NUMBER ++ u32_bytes KVS_FILE_VERSION ++
    u32_bytes (ht_size t % 4294967296) ++ u32_bytes 0 ++
    ((t.entries.filter is_live).map fun e =>
      i32_bytes e.key ++ u32_bytes ((cstr (e.value.getD [])).length % 4294967296) ++
        cstr (e.value.getD [])).flatten

/-- `fread(buf, 1, n, file)`: take `n` bytes, or fail (short read) if fewer
remain. -/
def read_bytes (s : List Nat) (n : Nat) : Option (List Nat × List Nat) :=
  if n ≤ s.length then some (s.take n, s.drop n) else none

/-- Decode a little-endian `uint32_t` from (at least) four bytes. -/
def decode_u32 (b : List Nat) : Nat :=
  b.getD 0 0 + 256 * b.getD 1 0 + 65536 * b.getD 2 0 + 16777216 * b.getD 3 0

/-- Decode a little-endian two's-complement `int` from four bytes. -/
def decode_i32 (b : List Nat) : Int :=
  let u := decode_u32 b
  if u < 2147483648 then (u : Int) else (u : Int) - 4294967296

/-- The record loop of `kvs_load_from_file` (`persistence.c:125-174`):
read key and value length, reject lengths above 100000 as corruption,
read the value bytes (the C appends a terminating 0 and `ht_set` copies up
to it — `cstr` inside `ht_place` models that), insert via `ht_set`.  The
value-buffer `malloc` is not made to fail (claims never exercise it). -/
def load_loop : Nat → Table → List Nat → Bool × Table × Option KvsError
  | 0, t, _ => (true, t, some .success)
  | n + 1, t, s =>
    match read_bytes s 4 with
    | none => (false, t, some .fileIo)
    | some (kb, s1) =>
      match read_bytes s1 4 with
      | none => (false, t, some .fileIo)
      | some (lb, s2) =>
        let len := decode_u32 lb
        if 100000 < len then (false, t, some .corruption)
        else
          match read_bytes s2 len with
          | none => (false, t, some .fileIo)
          | some (vb, s3) =>
            let r := ht_set t (decode_i32 kb) vb
            if r.1 then load_loop n r.2.1 s3 else (false, r.2.1, r.2.2)

/-- `kvs_load_from_file` from `persistence.c:88-179`: read and validate the
16-byte header (magic then version, both mismatches are corruption), then
run the record loop `entry_count` times. -/
def kvs_load_from_file (t : Table) (s : List Nat) : Bool × Table × Option KvsError :=
  match read_bytes s 16 with
  | none => (false, t, some .fileIo)
  | some (hb, rest) =>
    if !(decode_u32 (hb.take 4) == KVS_MAGIC_NUMBER) then (false, t, some .corruption)
    else if !(decode_u32 ((hb.drop 4).take 4) == KVS_FILE_VERSION) then (false, t, some .corruption)
    else load_loop (decode_u32 ((hb.drop 8).take 4)) t rest

/-- Byte list of an ASCII string literal. -/
def strBytes (s : String) : List Nat := s.toList.map Char.toNat

/-! ### Header construction and concrete scenario tables -/

/-- File header bytes with a given entry count (magic, version, count, reserved). -/
def mkHeader (cnt : Nat) : List Nat :=
  u32_bytes KVS_MAGIC_NUMBER ++ u32_bytes KVS_FILE_VERSION ++ u32_bytes cnt ++ u32_bytes 0

/-- A fresh table of capacity 16 after `set(1,"a")`: key 1 lives at its home slot. -/
def c1t1 : Table := (ht_set (ht_create 16) 1 (strBytes ("a"))).2.1

/-- … after overwriting key 1 with `"b"`. -/
def c1t2 : Table := (ht_set c1t1 1 (strBytes ("b"))).2.1

/-- Capacity-16 table after `set(1,"a")`, `delete(1)`, `set(1,"b")`: the second
set lands on the tombstone left by the delete. -/
def c2u3 : Table :=
  (ht_set (ht_delete (ht_set (ht_create 16) 1 (strBytes ("a"))).2.1 1).2.1
    1 (strBytes ("b"))).2.1

/-- Capacity-16 table after `set(2,"x")` then the overwrite `set(2,"y")`. -/
def c2w2 : Table :=
  (ht_set (ht_set (ht_create 16) 2 (strBytes ("x"))).2.1 2 (strBytes ("y"))).2.1

/-- Capacity-4 table holding keys 1 and 2. -/
def c3w2 : Table :=
  (ht_set (ht_set (ht_create 4) 1 (strBytes ("a"))).2.1 2 (strBytes ("b"))).2.1

/-- Result of inserting the fresh key 3 into `c3w2`. -/
def c3w3 : Bool × Table × Option KvsError := ht_set c3w2 3 (strBytes ("c"))

/-- Capacity-2 table holding key 1 (one live entry). -/
def c4in : Table := (ht_set (ht_create 2) 1 (strBytes ("a"))).2.1

/-- Resizing `c4in` to capacity 4 when the slot-array allocation succeeds but
the value-copy allocation of the first re-insertion fails. -/
def c4res : Bool × Table × Option KvsError × List Bool :=
  resize_table c4in 4 [true, false]

/-- Capacity-16 table holding exactly {(100,"one hundred"), (200,"two hundred"),
(300,"three hundred")}. -/
def c5saved : Table :=
  (ht_set (ht_set (ht_set (ht_create 16) 100 (strBytes ("one hundred"))).2.1
    200 (strBytes ("two hundred"))).2.1 300 (strBytes ("three hundred"))).2.1

/-- Serialize `c5saved` and deserialize the bytes into a fresh default-capacity
table. -/
def c5res : Bool × Table × Option KvsError :=
  kvs_load_from_file (ht_create DEFAULT_CAPACITY) (kvs_save_to_file c5saved)

/-- Capacity-4 table with a tombstone on key 5's home slot (index 0) and key 5
one step further along the probe sequence. -/
def c8t : Table :=
  { entries := [⟨DELETED_KEY, none, true⟩, ⟨5, some [120], true⟩, emptyEntry, emptyEntry]
    size := 1
    tombstones := 1 }

/-- Capacity-4 table holding only key 1. -/
def c7t : Table := (ht_set (ht_create 4) 1 (strBytes ("a"))).2.1

/-- The stream with a record whose declared value length is exactly the
100000-byte bound, with exactly that many value bytes present. -/
def c10okStream : List Nat :=
  mkHeader 1 ++ i32_bytes 5 ++ u32_bytes 100000 ++ List.replicate 100000 65

/-- Deserializing `c10okStream` into a fresh default table. -/
def c10ok : Bool × Table × Option KvsError :=
  kvs_load_from_file (ht_create 16) c10okStream

/-- The same header and record but with declared length 100001 (no value
bytes needed: the bound check fires before the value would be read). -/
def c10badStream : List Nat := mkHeader 1 ++ i32_bytes 5 ++ u32_bytes 100001

/-- Deserializing `c10badStream` into a fresh default table. -/
def c10bad : Bool × Table × Option KvsError :=
  kvs_load_from_file (ht_create 16) c10badStream

/-- The on-disk bytes of one record `(key, value_length, value_bytes)`. -/
def record_bytes (k : Int) (v : List Nat) : List Nat :=
  i32_bytes k ++ (u32_bytes v.length ++ v)

/-- The on-disk bytes of a list of records. -/
def recs_bytes (rs : List (Int × List Nat)) : List Nat :=
  (rs.map fun r => record_bytes r.1 r.2).flatten

/-- Insert a list of records through the normal `ht_set` path, failing if any
insertion fails (the reference fold the loaded table is compared against). -/
def insert_all : Table → List (Int × List Nat) → Option Table
  | t, [] => some t
  | t, (k, v) :: rest =>
    if (ht_set t k v).1 then insert_all (ht_set t k v).2.1 rest else none

/-! ### Lemmas and claim theorems -/

/-- One-step unfolding of `ht_setF` at the pure entry fuel. -/
theorem ht_setF_FUEL (t : Table) (k : Int) (v : List Nat) (s : List Bool) :
    ht_setF FUEL t k v s = ht_setF (63 + 1) t k v s := rfl

/-- C1: for every table t, key k (k not the reserved sentinel) and values v1, v2:
after set(k,v1) succeeds and then set(k,v2) succeeds, get(k) returns v2 and size()
equals its value from immediately before the second set.  The code violates the
size part: `ht_set` increments `table->size` unconditionally (hash_table.c:216),
so overwriting key 1 takes the reported size from 1 to 2 (and the misdirected
tombstone decrement underflows `tombstones` to 2^64 − 1), while `get` does
return v2 as claimed. -/
theorem c1_overwrite_size_bug :
    (ht_set (ht_create 16) 1 (strBytes ("a"))).1 = true ∧
    (ht_set c1t1 1 (strBytes ("b"))).1 = true ∧
    (ht_get c1t2 1).1 = some (strBytes ("b")) ∧
    ht_size c1t1 = 1 ∧
    ht_size c1t2 = 2 ∧
    live_count c1t2.entries = 1 ∧
    c1t2.tombstones = U64 - 1 := by decide

/-- C2: the claimed invariant — `size` = number of occupied non-tombstone slots
and `tombstones` = number of tombstone slots in every reachable table, with a
set landing on a tombstone decrementing the tombstone count and an overwrite
changing neither count.  The code violates it (hash_table.c:208-216): the
tombstone-decrement condition tests the overwrite case instead of the tombstone
case, and `size` is incremented unconditionally.  After set/delete/set of the
same key the table has `tombstones = 1` but no tombstone slot; after an
overwrite it has `size = 2` but one live slot. -/
theorem c2_count_invariant_bug :
    c2u3.tombstones = 1 ∧
    tomb_count c2u3.entries = 0 ∧
    c2u3.size = 1 ∧
    live_count c2u3.entries = 1 ∧
    c2w2.size = 2 ∧
    live_count c2w2.entries = 1 ∧
    tomb_count c2w2.entries = 0 ∧
    c2w2.tombstones = U64 - 1 := by decide

/-- C3 counterexample: on a capacity-4 table holding two keys, the projected
load factor for a third insertion is (2+0+1)/4 = 0.75, so the claim requires
growth before the insertion; the code does not grow (capacity stays 4, because
it tests the current load 2/4 < 0.75 without the +1), and immediately after
the successful insertion of the new key the load factor is 3/4 = 0.75, not
strictly below 0.75. -/
theorem c3_counterexample :
    c3w3.1 = true ∧
    c3w2.size = 2 ∧ c3w2.tombstones = 0 ∧ capacity c3w2 = 4 ∧
    c3w3.2.1.size = 3 ∧ c3w3.2.1.tombstones = 0 ∧
    capacity c3w3.2.1 = 4 ∧
    ¬ (4 * (c3w3.2.1.size + c3w3.2.1.tombstones) < 3 * capacity c3w3.2.1) := by decide

/-- C4: resize is claimed to be all-or-nothing — after a failed resize the
table must be exactly the table from before the call.  The code violates this
on the re-insertion failure path (hash_table.c:117-124): it restores `entries`
and `capacity` but leaves `size` and `tombstones` at the partially rebuilt
values (and has already freed the value buffers of re-processed old slots), so
the failed resize of a one-entry table reports size 0 instead of 1. -/
theorem c4_resize_rollback_bug :
    c4res.1 = false ∧
    c4res.2.2.1 = some KvsError.memory ∧
    c4in.size = 1 ∧
    c4res.2.1.size = 0 ∧
    c4res.2.1.entries = c4in.entries ∧
    c4res.2.1 ≠ c4in := by decide

/-- C5: round-trip through the codec — serializing a table containing exactly
the three entries and deserializing into a freshly created default-capacity
table succeeds, yields size() = 3, and get returns exactly the original
strings. -/
theorem c5_roundtrip :
    ht_size c5saved = 3 ∧
    live_count c5saved.entries = 3 ∧
    c5res.1 = true ∧
    ht_size c5res.2.1 = 3 ∧
    (ht_get c5res.2.1 100).1 = some (strBytes ("one hundred")) ∧
    (ht_get c5res.2.1 200).1 = some (strBytes ("two hundred")) ∧
    (ht_get c5res.2.1 300).1 = some (strBytes ("three hundred")) := by decide

/-- C9: set, get and delete with the reserved sentinel key (INT_MIN, the
tombstone marker) always fail with an invalid-parameter result and leave the
table unchanged, whatever the table holds. -/
theorem c9_sentinel_rejected (t : Table) (v : List Nat) :
    ht_set t DELETED_KEY v = (false, t, some KvsError.invalidParam) ∧
    ht_get t DELETED_KEY = (none, KvsError.invalidParam) ∧
    ht_delete t DELETED_KEY = (false, t, KvsError.invalidParam) := by
  refine ⟨?_, ?_, ?_⟩
  · rw [ht_set, ht_setF_FUEL]
    simp [ht_setF]
  · simp [ht_get]
  · simp [ht_delete]

/-- Stepping the probe by one and then walking `j` more slots lands where
walking `j + 1` slots from the original index lands. -/
theorem probe_step (C idx j : Nat) :
    ((idx + 1) % C + j) % C = (idx + (j + 1)) % C := by
  rw [Nat.mod_add_mod]
  congr 1
  omega

/-- If the slots at offsets `< d` from the probe start are all occupied with a
key other than `k` (tombstones included), and the slot at offset `d` is
occupied by `k`, the lookup walk returns the slot at offset `d`. -/
theorem find_slot_aux_reaches (t : Table) (k : Int) (hk : k ≠ DELETED_KEY) (d : Nat) :
    ∀ (idx steps : Nat) (ft : Option Nat), idx < capacity t → d < steps →
    (∀ j, j < d → (entryAt t ((idx + j) % capacity t)).occupied = true ∧
      (entryAt t ((idx + j) % capacity t)).key ≠ k) →
    (entryAt t ((idx + d) % capacity t)).occupied = true →
    (entryAt t ((idx + d) % capacity t)).key = k →
    find_slot_aux t k false idx steps ft = some ((idx + d) % capacity t) := by
  induction d with
  | zero =>
    intro idx steps ft hidx hd _hskip hocc hkey
    obtain ⟨st, rfl⟩ : ∃ st, steps = st + 1 := ⟨steps - 1, by omega⟩
    have hidx0 : (idx + 0) % capacity t = idx := by
      rw [Nat.add_zero, Nat.mod_eq_of_lt hidx]
    rw [hidx0] at hocc hkey
    have hdel : ((entryAt t idx).key == DELETED_KEY) = false := by
      simp [hkey, hk]
    simp [find_slot_aux, hocc, hdel, hkey, hk, hidx0, Nat.mod_eq_of_lt hidx]
  | succ d ih =>
    intro idx steps ft hidx hd hskip hocc hkey
    obtain ⟨st, rfl⟩ : ∃ st, steps = st + 1 := ⟨steps - 1, by omega⟩
    have hC : 0 < capacity t := Nat.lt_of_le_of_lt (Nat.zero_le idx) hidx
    have h0 := hskip 0 (by omega)
    rw [Nat.add_zero, Nat.mod_eq_of_lt hidx] at h0
    have hrec := ih ((idx + 1) % capacity t) st ft (Nat.mod_lt _ hC) (by omega)
      (by
        intro j hj
        rw [probe_step]
        exact hskip (j + 1) (by omega))
      (by rw [probe_step]; exact hocc)
      (by rw [probe_step]; exact hkey)
    have hne : ((entryAt t idx).key == k) = false := by
      simp [h0.2]
    rw [probe_step] at hrec
    by_cases hdel : (entryAt t idx).key = DELETED_KEY
    · simp only [find_slot_aux, h0.1, hdel]
      simpa using hrec
    · have hdel' : ((entryAt t idx).key == DELETED_KEY) = false := by simp [hdel]
      simp only [find_slot_aux, h0.1, hdel', hne]
      simpa using hrec

/-- Any slot the lookup walk returns is inside the table and is either
unoccupied (the empty slot that ended the probe) or a live slot holding `k`. -/
theorem find_slot_aux_lookup_cases (t : Table) (k : Int) :
    ∀ (steps idx : Nat) (ft : Option Nat) (i : Nat), idx < capacity t →
    find_slot_aux t k false idx steps ft = some i →
    i < capacity t ∧
      ((entryAt t i).occupied = false ∨
       ((entryAt t i).occupied = true ∧ (entryAt t i).key = k ∧
        (entryAt t i).key ≠ DELETED_KEY)) := by
  intro steps
  induction steps with
  | zero =>
    intro idx ft i _ h
    simp [find_slot_aux] at h
  | succ st ih =>
    intro idx ft i hidx h
    have hC : 0 < capacity t := Nat.lt_of_le_of_lt (Nat.zero_le idx) hidx
    by_cases hocc : (entryAt t idx).occupied = true
    · by_cases hdel : (entryAt t idx).key = DELETED_KEY
      · simp only [find_slot_aux, hocc, hdel] at h
        simp only [Bool.not_true, Bool.false_eq_true, if_false, beq_self_eq_true,
          if_true] at h
        exact ih ((idx + 1) % capacity t) _ i (Nat.mod_lt _ hC) h
      · have hdel' : ((entryAt t idx).key == DELETED_KEY) = false := by simp [hdel]
        by_cases hkey : (entryAt t idx).key = k
        · have hkD : (k == DELETED_KEY) = false := by
            rw [← hkey]
            simp [hdel]
          simp only [find_slot_aux, hocc, hdel', hkey] at h
          simp [hkD] at h
          subst h
          exact ⟨hidx, Or.inr ⟨hocc, hkey, hdel⟩⟩
        · have hkey' : ((entryAt t idx).key == k) = false := by simp [hkey]
          simp only [find_slot_aux, hocc, hdel', hkey'] at h
          simp only [Bool.not_true, Bool.false_eq_true, if_false] at h
          exact ih ((idx + 1) % capacity t) _ i (Nat.mod_lt _ hC) h
    · have hocc' : (entryAt t idx).occupied = false := by
        simpa using hocc
      simp only [find_slot_aux, hocc'] at h
      simp only [Bool.not_false, if_true, Bool.false_and, Bool.false_eq_true, if_false,
        Option.some.injEq] at h
      subst h
      exact ⟨hidx, Or.inl hocc'⟩

/-- `is_live` unfolded to a proposition. -/
theorem is_live_iff (e : Entry) :
    is_live e = true ↔ (e.occupied = true ∧ e.key ≠ DELETED_KEY) := by
  simp [is_live]

/-- C8: lookup probing skips over tombstones rather than stopping at them —
if key `k` occupies the slot `d` steps along its probe sequence and every
earlier slot of the sequence is occupied (tombstone or other live key, never
empty), `get(k)` returns that slot's value; probing stops only at an empty
slot or after a full cycle of `capacity` steps. -/
theorem c8_lookup_skips_tombstones (t : Table) (k : Int) (d : Nat)
    (hk : k ≠ DELETED_KEY)
    (hd : d < capacity t)
    (hocc : (entryAt t ((hash_key k % capacity t + d) % capacity t)).occupied = true)
    (hkey : (entryAt t ((hash_key k % capacity t + d) % capacity t)).key = k)
    (hskip : ∀ j, j < d →
      (entryAt t ((hash_key k % capacity t + j) % capacity t)).occupied = true ∧
      (entryAt t ((hash_key k % capacity t + j) % capacity t)).key ≠ k) :
    ht_get t k =
      ((entryAt t ((hash_key k % capacity t + d) % capacity t)).value,
       KvsError.success) := by
  have hC : 0 < capacity t := Nat.lt_of_le_of_lt (Nat.zero_le d) hd
  have hfs : find_slot t k false =
      some ((hash_key k % capacity t + d) % capacity t) := by
    rw [find_slot, if_neg (by omega)]
    exact find_slot_aux_reaches t k hk d (hash_key k % capacity t) (capacity t) none
      (Nat.mod_lt _ hC) hd hskip hocc hkey
  have hkB : (k == DELETED_KEY) = false := by simp [hk]
  have hkd : (entryAt t ((hash_key k % capacity t + d) % capacity t)).key ≠
      DELETED_KEY := by
    rw [hkey]
    exact hk
  rw [ht_get]
  simp only [hkB, hfs, hocc, hkey, beq_self_eq_true, Bool.not_true, Bool.false_eq_true,
    if_false, Bool.false_or, Bool.or_false, Bool.or_self]

/-- Witness for C8 at a concrete table: key 5 hashes to slot 0, which holds a
tombstone; get(5) still returns the value stored one probe step further. -/
theorem c8_witness : ht_get c8t 5 = (some [120], KvsError.success) :=
  c8_lookup_skips_tombstones c8t 5 1 (by decide) (by decide) (by decide) (by decide)
    (by decide)

/-- Anatomy of a successful `ht_delete`: the key is not the sentinel, lookup
found a live slot holding the key, and the result tombstones exactly that
slot, decrementing `size` and incrementing `tombstones`. -/
theorem ht_delete_success (t : Table) (k : Int) (h : (ht_delete t k).1 = true) :
    ∃ i, i < capacity t ∧ find_slot t k false = some i ∧
      (entryAt t i).occupied = true ∧ (entryAt t i).key = k ∧ k ≠ DELETED_KEY ∧
      (ht_delete t k).2.1 =
        { entries := t.entries.set i ⟨DELETED_KEY, none, true⟩
          size := (t.size + (U64 - 1)) % U64
          tombstones := (t.tombstones + 1) % U64 } := by
  have hk : k ≠ DELETED_KEY := by
    intro hkk
    rw [ht_delete] at h
    simp [hkk] at h
  have hkB : (k == DELETED_KEY) = false := by simp [hk]
  cases hfs : find_slot t k false with
  | none =>
    rw [ht_delete] at h
    simp [hkB, hfs] at h
  | some i =>
    have hC : 0 < capacity t := by
      by_contra h0
      rw [find_slot, if_pos (by omega)] at hfs
      exact Option.noConfusion hfs
    have hfs' := hfs
    rw [find_slot, if_neg (by omega)] at hfs'
    obtain ⟨hiC, _⟩ := find_slot_aux_lookup_cases t k (capacity t)
      (hash_key k % capacity t) none i (Nat.mod_lt _ hC) hfs'
    by_cases hchk : (!(entryAt t i).occupied || !((entryAt t i).key == k) ||
        (entryAt t i).key == DELETED_KEY) = true
    · rw [ht_delete] at h
      simp [hkB, hfs, hchk] at h
    · have hchkF := eq_false_of_ne_true hchk
      have hparts : (entryAt t i).occupied = true ∧ (entryAt t i).key = k := by
        constructor
        · by_contra hcc
          simp [hcc] at hchkF
        · by_contra hcc
          simp [hcc] at hchkF
      refine ⟨i, hiC, rfl, hparts.1, hparts.2, hk, ?_⟩
    -- the result table is read off from the success branch
      rw [ht_delete]
      simp [hkB, hfs, hchkF]

/-- On a table with no live slot holding `k`, both `get(k)` and `delete(k)`
report key-not-found (the probe can only end at an empty slot or exhaust the
cycle). -/
theorem ht_no_live_lookup (t' : Table) (k : Int) (hk : k ≠ DELETED_KEY)
    (hnolive : ∀ j, j < capacity t' →
      ¬(is_live (entryAt t' j) = true ∧ (entryAt t' j).key = k)) :
    ht_get t' k = (none, KvsError.keyNotFound) ∧
    ht_delete t' k = (false, t', KvsError.keyNotFound) := by
  have hkB : (k == DELETED_KEY) = false := by simp [hk]
  cases hfs : find_slot t' k false with
  | none =>
    constructor
    · rw [ht_get]
      simp [hkB, hfs]
    · rw [ht_delete]
      simp [hkB, hfs]
  | some m =>
    have hC : 0 < capacity t' := by
      by_contra h0
      rw [find_slot, if_pos (by omega)] at hfs
      exact Option.noConfusion hfs
    have hfs' := hfs
    rw [find_slot, if_neg (by omega)] at hfs'
    obtain ⟨hmC, hmcases⟩ := find_slot_aux_lookup_cases t' k (capacity t')
      (hash_key k % capacity t') none m (Nat.mod_lt _ hC) hfs'
    have hno : (entryAt t' m).occupied = false := by
      cases hmcases with
      | inl h => exact h
      | inr h =>
        exact absurd ⟨(is_live_iff _).mpr ⟨h.1, h.2.2⟩, h.2.1⟩ (hnolive m hmC)
    constructor
    · rw [ht_get]
      simp [hkB, hfs, hno]
    · rw [ht_delete]
      simp [hkB, hfs, hno]

/-- C7: after a successful `delete(k)` on a table whose live keys are unique,
`get(k)` reports key-not-found, and a second `delete(k)` reports key-not-found
as well, leaving the table unchanged. -/
theorem c7_delete_then_get (t : Table) (k : Int)
    (huniq : ∀ i, i < capacity t → ∀ j, j < capacity t →
      is_live (entryAt t i) = true → is_live (entryAt t j) = true →
      (entryAt t i).key = (entryAt t j).key → i = j)
    (hdel : (ht_delete t k).1 = true) :
    ht_get (ht_delete t k).2.1 k = (none, KvsError.keyNotFound) ∧
    (ht_delete (ht_delete t k).2.1 k).1 = false ∧
    (ht_delete (ht_delete t k).2.1 k).2.1 = (ht_delete t k).2.1 ∧
    (ht_delete (ht_delete t k).2.1 k).2.2 = KvsError.keyNotFound := by
  obtain ⟨i, hiC, hfs, hocc, hkey, hk, ht'⟩ := ht_delete_success t k hdel
  have hkB : (k == DELETED_KEY) = false := by simp [hk]
  have hcap' : capacity (ht_delete t k).2.1 = capacity t := by
    rw [ht', capacity, capacity]
    simp
  have hC : 0 < capacity t := Nat.lt_of_le_of_lt (Nat.zero_le i) hiC
  have hli : is_live (entryAt t i) = true := by
    rw [is_live_iff]
    exact ⟨hocc, by rw [hkey]; exact hk⟩
  -- after the delete no live slot holds k any more
  have hnolive : ∀ j, j < capacity t →
      ¬(is_live (entryAt (ht_delete t k).2.1 j) = true ∧
        (entryAt (ht_delete t k).2.1 j).key = k) := by
    intro j hj hbad
    by_cases hji : j = i
    · have hent : entryAt (ht_delete t k).2.1 j = ⟨DELETED_KEY, none, true⟩ := by
        rw [ht', hji, entryAt]
        simp [List.getElem?_set_self (by simpa [capacity] using hiC)]
      rw [hent] at hbad
      simp [is_live] at hbad
    · have hent : entryAt (ht_delete t k).2.1 j = entryAt t j := by
        rw [ht', entryAt, entryAt]
        simp [List.getElem?_set_ne (Ne.symm hji)]
      rw [hent] at hbad
      exact hji (huniq j hj i hiC hbad.1 hli (hbad.2.trans hkey.symm))
  obtain ⟨hget, hdel2⟩ := ht_no_live_lookup (ht_delete t k).2.1 k hk
    (by intro j hj; exact hnolive j (by rwa [hcap'] at hj))
  exact ⟨hget, by rw [hdel2], by rw [hdel2], by rw [hdel2]⟩

/-- Witness for C7 at a concrete table: delete key 1 from a table holding it,
then get and a second delete both report key-not-found. -/
theorem c7_witness :
    ht_get (ht_delete c7t 1).2.1 1 = (none, KvsError.keyNotFound) ∧
    (ht_delete (ht_delete c7t 1).2.1 1).1 = false ∧
    (ht_delete (ht_delete c7t 1).2.1 1).2.1 = (ht_delete c7t 1).2.1 ∧
    (ht_delete (ht_delete c7t 1).2.1 1).2.2 = KvsError.keyNotFound :=
  c7_delete_then_get c7t 1 (by decide) (by decide)

/-- `fread` of exactly the length of a known prefix returns that prefix and
the rest of the stream. -/
theorem read_bytes_split (a b : List Nat) (n : Nat) (h : a.length = n) :
    read_bytes (a ++ b) n = some (a, b) := by
  subst h
  rw [read_bytes, if_pos (by simp), List.take_left, List.drop_left]

/-- `fread` of the whole remaining stream. -/
theorem read_bytes_all (a : List Nat) (n : Nat) (h : a.length = n) :
    read_bytes a n = some (a, []) := by
  subst h
  rw [read_bytes, if_pos (Nat.le_refl _), List.take_length, List.drop_length]

/-- One-step unfolding of `ht_setF` on positive fuel (stated explicitly so the
nested `ht_setF fuel` setter is not unfolded any further). -/
theorem ht_setF_succ (fuel : Nat) (t : Table) (k : Int) (v : List Nat) (s : List Bool) :
    ht_setF (fuel + 1) t k v s =
      (if k == DELETED_KEY then (false, t, some .invalidParam, s)
       else if 0 < capacity t ∧ 3 * capacity t ≤ 4 * ((t.size + t.tombstones) % U64) then
         match resize_table_go (ht_setF fuel) t (capacity t * GROWTH_FACTOR % U64) s with
         | (true, t1, _, s1) => ht_place t1 k v s1
         | (false, t1, err, s1) => (false, t1, err, s1)
       else ht_place t k v s) := rfl

/-- `ht_place` when the allocation oracle is pure and the slot found for the
key does not satisfy the (misdirected) tombstone-decrement condition: the
entry is written, `size` is incremented, `tombstones` is untouched. -/
theorem ht_place_skip (t : Table) (k : Int) (v : List Nat) (i : Nat)
    (hfs : find_slot t k true = some i)
    (hcond : ((entryAt t i).occupied && (entryAt t i).key == k &&
      !((entryAt t i).key == DELETED_KEY)) = false) :
    ht_place t k v [] =
      (true,
       { entries := t.entries.set i ⟨k, some (cstr v), true⟩
         size := (t.size + 1) % U64
         tombstones := t.tombstones },
       none, []) := by
  rw [ht_place, hfs]
  simp [alloc_ok, hcond]

/-- Inserting key 5 into a fresh capacity-16 table always succeeds and places
the value at key 5's home slot (slot 0), for a value of any size. -/
theorem ht_set_fresh16 (vb : List Nat) :
    ht_set (ht_create 16) 5 vb =
      (true,
       { entries := (ht_create 16).entries.set 0 ⟨5, some (cstr vb), true⟩
         size := 1
         tombstones := 0 },
       none) := by
  have hfs : find_slot (ht_create 16) 5 true = some 0 := by decide
  rw [ht_set, ht_setF_FUEL, ht_setF_succ]
  rw [if_neg (show ¬(((5 : Int) == DELETED_KEY) = true) by decide)]
  rw [if_neg (show ¬(0 < capacity (ht_create 16) ∧ 3 * capacity (ht_create 16) ≤
    4 * (((ht_create 16).size + (ht_create 16).tombstones) % U64)) by decide)]
  rw [ht_place_skip (ht_create 16) 5 vb 0 hfs (by decide)]
  have h1 : ((ht_create 16).size + 1) % U64 = 1 := by decide
  have h2 : (ht_create 16).tombstones = 0 := by decide
  rw [h1, h2]

/-- One record step of the load loop on a well-formed record: read the
4-byte key, the 4-byte length (within the bound), then exactly that many
value bytes, and insert via `ht_set`. -/
theorem load_loop_record (n : Nat) (t : Table) (kb lb s2 vb rest : List Nat)
    (hkb : kb.length = 4) (hlb : lb.length = 4)
    (hbound : ¬ (100000 < decode_u32 lb))
    (hread : read_bytes s2 (decode_u32 lb) = some (vb, rest)) :
    load_loop (n + 1) t (kb ++ (lb ++ s2)) =
      (if (ht_set t (decode_i32 kb) vb).1 then
         load_loop n (ht_set t (decode_i32 kb) vb).2.1 rest
       else (false, (ht_set t (decode_i32 kb) vb).2.1, (ht_set t (decode_i32 kb) vb).2.2)) := by
  simp only [load_loop, read_bytes_split kb (lb ++ s2) 4 hkb,
    read_bytes_split lb s2 4 hlb, if_neg hbound, hread]

/-- One record step of the load loop on a record whose declared value length
exceeds the 100000-byte bound: the loop aborts with a corruption error and
the table is returned as it stands. -/
theorem load_loop_corrupt (n : Nat) (t : Table) (kb lb s2 : List Nat)
    (hkb : kb.length = 4) (hlb : lb.length = 4)
    (hbound : 100000 < decode_u32 lb) :
    load_loop (n + 1) t (kb ++ (lb ++ s2)) = (false, t, some KvsError.corruption) := by
  simp only [load_loop, read_bytes_split kb (lb ++ s2) 4 hkb,
    read_bytes_split lb s2 4 hlb, if_pos hbound]

/-- Loading `c10okStream` accepts the 100000-byte record and inserts it. -/
theorem c10ok_eq :
    c10ok =
      (true,
       { entries := (ht_create 16).entries.set 0
           ⟨5, some (cstr (List.replicate 100000 65)), true⟩
         size := 1
         tombstones := 0 },
       some KvsError.success) := by
  have hhdr : read_bytes c10okStream 16 =
      some (mkHeader 1, i32_bytes 5 ++ (u32_bytes 100000 ++ List.replicate 100000 65)) := by
    rw [c10okStream, List.append_assoc, List.append_assoc]
    exact read_bytes_split _ _ _ (by decide)
  have hmagic : (decode_u32 ((mkHeader 1).take 4) == KVS_MAGIC_NUMBER) = true := by decide
  have hver : (decode_u32 (((mkHeader 1).drop 4).take 4) == KVS_FILE_VERSION) = true := by
    decide
  have hcnt : decode_u32 (((mkHeader 1).drop 8).take 4) = 1 := by decide
  have hdec : decode_u32 (u32_bytes 100000) = 100000 := by decide
  have hval : read_bytes (List.replicate (100000 : Nat) (65 : Nat)) 100000 =
      some (List.replicate 100000 65, []) :=
    read_bytes_all _ _ (by rw [List.length_replicate])
  have hk5 : decode_i32 (i32_bytes 5) = 5 := by decide
  rw [c10ok, kvs_load_from_file, hhdr]
  simp only [hmagic, Bool.not_true, Bool.false_eq_true, if_false, hcnt]
  rw [hver]
  simp only [Bool.not_true, Bool.false_eq_true, if_false]
  rw [show (1 : Nat) = 0 + 1 from rfl]
  rw [load_loop_record 0 (ht_create 16) (i32_bytes 5) (u32_bytes 100000)
    (List.replicate 100000 65) (List.replicate 100000 65) [] (by decide) (by decide)
    (by rw [hdec]; omega) (by rw [hdec]; exact hval)]
  rw [hk5, ht_set_fresh16]
  rw [if_pos (by rfl)]
  rw [load_loop]

/-- C10: the corruption test is strictly greater-than: a record declaring a
value length of exactly 100000 bytes is accepted (the load succeeds and the
entry is inserted), while 100001 is rejected as corruption without touching
the table. -/
theorem c10_bound_boundary :
    c10ok.1 = true ∧ ht_size c10ok.2.1 = 1 ∧ c10ok.2.2 = some KvsError.success ∧
    c10bad.1 = false ∧ c10bad.2.1 = ht_create 16 ∧
    c10bad.2.2 = some KvsError.corruption := by
  refine ⟨by rw [c10ok_eq], by rw [c10ok_eq]; rfl, by rw [c10ok_eq], ?_, ?_, ?_⟩ <;> decide

/-- Decoding inverts encoding for `uint32_t` values. -/
theorem decode_u32_u32_bytes (n : Nat) (h : n < 4294967296) :
    decode_u32 (u32_bytes n) = n := by
  simp [decode_u32, u32_bytes]
  omega

/-- Decoding inverts encoding for in-range `int` keys. -/
theorem decode_i32_i32_bytes (k : Int) (h1 : -2147483648 ≤ k) (h2 : k < 2147483648) :
    decode_i32 (i32_bytes k) = k := by
  have hu : to_u32 k < 4294967296 := by
    rw [to_u32]
    omega
  rw [decode_i32, i32_bytes, decode_u32_u32_bytes _ hu, to_u32]
  split <;> omega

/-- `u32_bytes` always encodes to four bytes. -/
theorem u32_bytes_length (n : Nat) : (u32_bytes n).length = 4 := by
  simp [u32_bytes]

/-- `i32_bytes` always encodes to four bytes. -/
theorem i32_bytes_length (k : Int) : (i32_bytes k).length = 4 := by
  simp [i32_bytes, u32_bytes]

/-- The header is sixteen bytes. -/
theorem mkHeader_length (cnt : Nat) : (mkHeader cnt).length = 16 := by
  simp [mkHeader, u32_bytes]

/-- The magic field of a well-formed header decodes to the magic constant. -/
theorem mkHeader_magic (cnt : Nat) :
    decode_u32 ((mkHeader cnt).take 4) = KVS_MAGIC_NUMBER := by
  simp [mkHeader, u32_bytes, decode_u32, KVS_MAGIC_NUMBER, KVS_FILE_VERSION]

/-- The version field of a well-formed header decodes to the version. -/
theorem mkHeader_version (cnt : Nat) :
    decode_u32 (((mkHeader cnt).drop 4).take 4) = KVS_FILE_VERSION := by
  simp [mkHeader, u32_bytes, decode_u32, KVS_MAGIC_NUMBER, KVS_FILE_VERSION]

/-- The entry-count field of a well-formed header decodes to the count. -/
theorem mkHeader_count (cnt : Nat) (h : cnt < 4294967296) :
    decode_u32 (((mkHeader cnt).drop 8).take 4) = cnt := by
  simp [mkHeader, u32_bytes, decode_u32, KVS_MAGIC_NUMBER, KVS_FILE_VERSION]
  omega

/-- Running the record loop over a prefix of well-formed records that all
insert successfully consumes exactly those records and continues on the rest
of the stream with the accordingly populated table. -/
theorem load_loop_good_run (rs : List (Int × List Nat)) :
    ∀ (t t' : Table) (m : Nat) (s : List Nat),
    (∀ r ∈ rs, -2147483648 ≤ r.1 ∧ r.1 < 2147483648 ∧ r.2.length ≤ 100000) →
    insert_all t rs = some t' →
    load_loop (rs.length + m) t (recs_bytes rs ++ s) = load_loop m t' s := by
  induction rs with
  | nil =>
    intro t t' m s _ hins
    simp [insert_all] at hins
    subst hins
    simp [recs_bytes]
  | cons r rest ih =>
    intro t t' m s hr hins
    obtain ⟨k, v⟩ := r
    have hrk := hr (k, v) (List.mem_cons_self _ _)
    have hv : v.length ≤ 100000 := hrk.2.2
    rw [insert_all] at hins
    by_cases hb : (ht_set t k v).1 = true
    · rw [if_pos hb] at hins
      have hstream : recs_bytes ((k, v) :: rest) ++ s =
          i32_bytes k ++ (u32_bytes v.length ++ (v ++ (recs_bytes rest ++ s))) := by
        simp [recs_bytes, record_bytes, List.append_assoc]
      rw [hstream, List.length_cons,
        show rest.length + 1 + m = (rest.length + m) + 1 from by omega]
      rw [load_loop_record (rest.length + m) t (i32_bytes k) (u32_bytes v.length)
        (v ++ (recs_bytes rest ++ s)) v (recs_bytes rest ++ s)
        (i32_bytes_length k) (u32_bytes_length v.length)
        (by rw [decode_u32_u32_bytes v.length (by omega)]; omega)
        (by
          rw [decode_u32_u32_bytes v.length (by omega)]
          exact read_bytes_split v _ _ rfl)]
      rw [decode_i32_i32_bytes k hrk.1 hrk.2.1, if_pos hb]
      exact ih (ht_set t k v).2.1 t' m s
        (fun r hrm => hr r (List.mem_cons_of_mem _ hrm)) hins
    · rw [if_neg hb] at hins
      exact Option.noConfusion hins

/-- C6: a stream with a valid header whose record sequence contains a record
declaring a value length above the 100000-byte bound makes the load fail with
a corruption error, and the destination table holds exactly the entries of the
records before the offending one (none of the later bytes are processed). -/
theorem c6_corruption_abort (t t' : Table) (rs : List (Int × List Nat)) (k : Int)
    (L : Nat) (tail : List Nat) (cnt : Nat)
    (hr : ∀ r ∈ rs, -2147483648 ≤ r.1 ∧ r.1 < 2147483648 ∧ r.2.length ≤ 100000)
    (hins : insert_all t rs = some t')
    (hcnt1 : rs.length < cnt) (hcnt2 : cnt < 4294967296)
    (hL1 : 100000 < L) (hL2 : L < 4294967296) :
    kvs_load_from_file t
      (mkHeader cnt ++ (recs_bytes rs ++ (i32_bytes k ++ (u32_bytes L ++ tail)))) =
      (false, t', some KvsError.corruption) := by
  rw [kvs_load_from_file, read_bytes_split _ _ 16 (mkHeader_length cnt)]
  simp only [mkHeader_magic, mkHeader_version, mkHeader_count cnt hcnt2,
    beq_self_eq_true, Bool.not_true, Bool.false_eq_true, if_false]
  obtain ⟨m, rfl⟩ : ∃ m, cnt = rs.length + (m + 1) := ⟨cnt - rs.length - 1, by omega⟩
  rw [load_loop_good_run rs t t' (m + 1) _ hr hins]
  exact load_loop_corrupt m t' (i32_bytes k) (u32_bytes L) tail
    (i32_bytes_length k) (u32_bytes_length L)
    (by rw [decode_u32_u32_bytes L hL2]; omega)

/-- Witness for C6 at a concrete stream: header for two entries, one good
record (1,"x"), then a record declaring 200000 value bytes — the load reports
corruption and only (1,"x") was inserted. -/
theorem c6_witness :
    kvs_load_from_file (ht_create 16)
      (mkHeader 2 ++ (recs_bytes [(1, [120])] ++ (i32_bytes 2 ++ (u32_bytes 200000 ++ [])))) =
      (false, (ht_set (ht_create 16) 1 [120]).2.1, some KvsError.corruption) :=
  c6_corruption_abort (ht_create 16) ((ht_set (ht_create 16) 1 [120]).2.1)
    [(1, [120])] 2 200000 [] 2 (by decide) (by decide) (by decide) (by decide)
    (by decide) (by decide)

/-- Any slot the insertion walk returns is inside the table and is an empty
slot, a tombstone (the remembered first one), or a live slot holding `k`. -/
theorem find_slot_aux_insert_cases (t : Table) (k : Int) :
    ∀ (steps idx : Nat) (ft : Option Nat) (i : Nat), idx < capacity t →
    (ft = none ∨ ∃ p, ft = some p ∧ p < capacity t ∧ (entryAt t p).occupied = true ∧
      (entryAt t p).key = DELETED_KEY) →
    find_slot_aux t k true idx steps ft = some i →
    i < capacity t ∧
      ((entryAt t i).occupied = false ∨
       ((entryAt t i).occupied = true ∧ (entryAt t i).key = DELETED_KEY) ∨
       ((entryAt t i).occupied = true ∧ (entryAt t i).key = k)) := by
  intro steps
  induction steps with
  | zero =>
    intro idx ft i _ hft h
    simp only [find_slot_aux, if_true] at h
    cases hft with
    | inl h0 =>
      rw [h0] at h
      exact Option.noConfusion h
    | inr h0 =>
      obtain ⟨p, hp, hpc, hpo, hpk⟩ := h0
      rw [hp] at h
      cases h
      exact ⟨hpc, Or.inr (Or.inl ⟨hpo, hpk⟩)⟩
  | succ st ih =>
    intro idx ft i hidx hft h
    have hC : 0 < capacity t := Nat.lt_of_le_of_lt (Nat.zero_le idx) hidx
    by_cases hocc : (entryAt t idx).occupied = true
    · by_cases hdel : (entryAt t idx).key = DELETED_KEY
      · simp only [find_slot_aux, hocc, hdel] at h
        simp only [Bool.not_true, Bool.false_eq_true, if_false, beq_self_eq_true,
          if_true, Bool.true_and] at h
        refine ih ((idx + 1) % capacity t) _ i (Nat.mod_lt _ hC) ?_ h
        cases hft with
        | inl h0 =>
          rw [h0]
          simp only [Option.isNone_none, if_true]
          exact Or.inr ⟨idx, rfl, hidx, hocc, hdel⟩
        | inr h0 =>
          obtain ⟨p, hp, hpc, hpo, hpk⟩ := h0
          rw [hp]
          simp only [Option.isNone_some, if_false]
          exact Or.inr ⟨p, rfl, hpc, hpo, hpk⟩
      · have hdel' : ((entryAt t idx).key == DELETED_KEY) = false := by simp [hdel]
        by_cases hkey : (entryAt t idx).key = k
        · have hkey' : ((entryAt t idx).key == k) = true := by simp [hkey]
          simp only [find_slot_aux, hocc, hdel', hkey'] at h
          simp only [Bool.not_true, Bool.false_eq_true, if_false, if_true,
            Option.some.injEq] at h
          subst h
          exact ⟨hidx, Or.inr (Or.inr ⟨hocc, hkey⟩)⟩
        · have hkey' : ((entryAt t idx).key == k) = false := by simp [hkey]
          simp only [find_slot_aux, hocc, hdel', hkey'] at h
          simp only [Bool.not_true, Bool.false_eq_true, if_false] at h
          exact ih ((idx + 1) % capacity t) _ i (Nat.mod_lt _ hC) hft h
    · have hocc' : (entryAt t idx).occupied = false := by simpa using hocc
      simp only [find_slot_aux, hocc'] at h
      simp only [Bool.not_false, if_true, Bool.true_and] at h
      cases hft with
      | inl h0 =>
        rw [h0] at h
        simp only [Option.isSome_none, Bool.false_eq_true, if_false,
          Option.some.injEq] at h
        subst h
        exact ⟨hidx, Or.inl hocc'⟩
      | inr h0 =>
        obtain ⟨p, hp, hpc, hpo, hpk⟩ := h0
        rw [hp] at h
        simp only [Option.isSome_some, if_true, Option.some.injEq] at h
        subst h
        exact ⟨hpc, Or.inr (Or.inl ⟨hpo, hpk⟩)⟩

/-- The insertion walk finds a slot whenever an empty slot lies within range. -/
theorem find_slot_aux_insert_some (t : Table) (k : Int) :
    ∀ (steps idx : Nat) (ft : Option Nat), idx < capacity t →
    (∃ d, d < steps ∧ (entryAt t ((idx + d) % capacity t)).occupied = false) →
    (find_slot_aux t k true idx steps ft).isSome = true := by
  intro steps
  induction steps with
  | zero =>
    intro idx ft _ ⟨d, hd, _⟩
    exact absurd hd (Nat.not_lt_zero d)
  | succ st ih =>
    intro idx ft hidx ⟨d, hd, hemp⟩
    have hC : 0 < capacity t := Nat.lt_of_le_of_lt (Nat.zero_le idx) hidx
    by_cases hocc : (entryAt t idx).occupied = true
    · have hd0 : d ≠ 0 := by
        intro h0
        rw [h0, Nat.add_zero, Nat.mod_eq_of_lt hidx] at hemp
        rw [hocc] at hemp
        exact Bool.noConfusion hemp
      have hrec : ∃ d', d' < st ∧
          (entryAt t (((idx + 1) % capacity t + d') % capacity t)).occupied = false := by
        refine ⟨d - 1, by omega, ?_⟩
        rw [probe_step, show d - 1 + 1 = d from by omega]
        exact hemp
      by_cases hdel : (entryAt t idx).key = DELETED_KEY
      · simp only [find_slot_aux, hocc, hdel]
        simp only [Bool.not_true, Bool.false_eq_true, if_false, beq_self_eq_true, if_true]
        exact ih ((idx + 1) % capacity t) _ (Nat.mod_lt _ hC) hrec
      · have hdel' : ((entryAt t idx).key == DELETED_KEY) = false := by simp [hdel]
        by_cases hkey : ((entryAt t idx).key == k) = true
        · simp only [find_slot_aux, hocc, hdel', hkey]
          simp [Bool.not_true]
        · have hkey' : ((entryAt t idx).key == k) = false := by simpa using hkey
          simp only [find_slot_aux, hocc, hdel', hkey']
          simp only [Bool.not_true, Bool.false_eq_true, if_false]
          exact ih ((idx + 1) % capacity t) _ (Nat.mod_lt _ hC) hrec
    · have hocc' : (entryAt t idx).occupied = false := by simpa using hocc
      simp only [find_slot_aux, hocc']
      simp only [Bool.not_false, if_true, Bool.true_and]
      cases ft <;> simp

/-- Walking from any start index can reach any slot within a full cycle. -/
theorem probe_reach (home j C : Nat) (hhome : home < C) (hj : j < C) :
    ∃ d, d < C ∧ (home + d) % C = j := by
  refine ⟨(j + C - home) % C, Nat.mod_lt _ (by omega), ?_⟩
  rw [Nat.add_mod_mod, Nat.add_sub_cancel' (by omega : home ≤ j + C),
    Nat.add_mod_right, Nat.mod_eq_of_lt hj]

/-- `find_slot` in insertion mode succeeds when the table has an empty slot. -/
theorem find_slot_insert_some (t : Table) (k : Int) (hC : 0 < capacity t)
    (hemp : ∃ j, j < capacity t ∧ (entryAt t j).occupied = false) :
    ∃ i, find_slot t k true = some i := by
  obtain ⟨j, hj, hjo⟩ := hemp
  obtain ⟨d, hd, hdj⟩ := probe_reach (hash_key k % capacity t) j (capacity t)
    (Nat.mod_lt _ hC) hj
  have hsome := find_slot_aux_insert_some t k (capacity t) (hash_key k % capacity t) none
    (Nat.mod_lt _ hC) ⟨d, hd, by rw [hdj]; exact hjo⟩
  rw [find_slot, if_neg (by omega)]
  exact Option.isSome_iff_exists.mp hsome

/-- Replacing an element shifts `countP` by the difference of the old and new
elements' predicate values. -/
theorem countP_set_balance (p : Entry → Bool) :
    ∀ (l : List Entry) (i : Nat) (x d : Entry), i < l.length →
    (l.set i x).countP p + (if p (l.getD i d) then 1 else 0) =
      l.countP p + (if p x then 1 else 0) := by
  intro l
  induction l with
  | nil =>
    intro i x d hi
    exact absurd hi (Nat.not_lt_zero i)
  | cons a l ih =>
    intro i x d hi
    cases i with
    | zero =>
      simp only [List.set, List.countP_cons, List.getD_cons_zero]
      omega
    | succ i =>
      simp only [List.set, List.countP_cons, List.getD_cons_succ]
      have := ih i x d (by simpa using hi)
      omega

/-- A table with fewer occupied slots than capacity has an empty slot. -/
theorem exists_unoccupied (t : Table) (h : occ_count t.entries < capacity t) :
    ∃ j, j < capacity t ∧ (entryAt t j).occupied = false := by
  by_contra hc
  push_neg at hc
  have hall : ∀ a ∈ t.entries, a.occupied = true := by
    intro a ha
    obtain ⟨j, hj, hja⟩ := List.mem_iff_getElem.mp ha
    have hocc := hc j hj
    have hocc' : (entryAt t j).occupied = true := by
      cases hb : (entryAt t j).occupied
      · exact absurd hb hocc
      · rfl
    rw [entryAt, List.getD_eq_getElem?_getD, List.getElem?_eq_getElem hj] at hocc'
    simpa [hja] using hocc'
  have : occ_count t.entries = t.entries.length :=
    List.countP_eq_length.mpr (by intro a ha; simpa using hall a ha)
  rw [capacity] at h
  omega

/-- The entry at a valid index is a member of the slot list. -/
theorem entryAt_mem (t : Table) (i : Nat) (h : i < capacity t) :
    entryAt t i ∈ t.entries := by
  rw [entryAt, List.getD_eq_getElem?_getD, List.getElem?_eq_getElem h]
  exact List.getElem_mem _

/-- `U64` as a literal, for `omega`. -/
theorem U64_eq : U64 = 18446744073709551616 := by
  rw [U64]
  norm_num

/-- Inserting a key with no live occurrence into a tombstone-free table whose
counters are consistent and whose load factor is below the threshold places
the key into an empty slot: no resize, `size` up one, no tombstone change. -/
theorem ht_setF_fresh_insert (fuel : Nat) (t1 : Table) (k : Int) (v : List Nat)
    (hk : k ≠ DELETED_KEY)
    (hC : 0 < capacity t1) (hC2 : capacity t1 < 9223372036854775808)
    (htmb : t1.tombstones = 0)
    (hocc : occ_count t1.entries = t1.size)
    (hnotomb : ∀ j, j < capacity t1 → (entryAt t1 j).occupied = true →
      (entryAt t1 j).key ≠ DELETED_KEY)
    (hgate : 4 * t1.size < 3 * capacity t1)
    (hfresh : live_has t1 k = false) :
    ∃ i, i < capacity t1 ∧ (entryAt t1 i).occupied = false ∧
      ht_setF (fuel + 1) t1 k v [] =
        (true,
         { entries := t1.entries.set i ⟨k, some (cstr v), true⟩
           size := t1.size + 1
           tombstones := 0 }, none, []) := by
  have hsz : t1.size < capacity t1 := by omega
  obtain ⟨i0, hfs⟩ := find_slot_insert_some t1 k hC (exists_unoccupied t1 (by omega))
  have hfs' := hfs
  rw [find_slot, if_neg (by omega)] at hfs'
  obtain ⟨hiC, hcases⟩ := find_slot_aux_insert_cases t1 k (capacity t1)
    (hash_key k % capacity t1) none i0 (Nat.mod_lt _ hC) (Or.inl rfl) hfs'
  have hempty : (entryAt t1 i0).occupied = false := by
    cases hcases with
    | inl h => exact h
    | inr h =>
      cases h with
      | inl h => exact absurd h.2 (hnotomb i0 hiC h.1)
      | inr h =>
        exfalso
        have hlive : is_live (entryAt t1 i0) = true :=
          (is_live_iff _).mpr ⟨h.1, by rw [h.2]; exact hk⟩
        have hhas : live_has t1 k = true := by
          rw [live_has, List.any_eq_true]
          exact ⟨entryAt t1 i0, entryAt_mem t1 i0 hiC, by simp [hlive, h.2]⟩
        rw [hhas] at hfresh
        exact Bool.noConfusion hfresh
  refine ⟨i0, hiC, hempty, ?_⟩
  rw [ht_setF_succ]
  rw [if_neg (show ¬((k == DELETED_KEY) = true) by simp [hk])]
  rw [if_neg (show ¬(0 < capacity t1 ∧ 3 * capacity t1 ≤
      4 * ((t1.size + t1.tombstones) % U64)) by
    rintro ⟨_, hle⟩
    rw [htmb, Nat.add_zero, Nat.mod_eq_of_lt (by rw [U64_eq]; omega)] at hle
    omega)]
  rw [ht_place_skip t1 k v i0 hfs (by rw [hempty]; simp)]
  rw [htmb]
  rw [Nat.mod_eq_of_lt (show t1.size + 1 < U64 by rw [U64_eq]; omega)]

/-- `getD` after `set` at the same (valid) index. -/
theorem getD_set_self (l : List Entry) (i : Nat) (x d : Entry) (h : i < l.length) :
    (l.set i x).getD i d = x := by
  rw [List.getD_eq_getElem?_getD, List.getElem?_set_self h]
  rfl

/-- `getD` after `set` at a different index. -/
theorem getD_set_ne (l : List Entry) (i j : Nat) (x d : Entry) (h : i ≠ j) :
    (l.set i x).getD j d = l.getD j d := by
  rw [List.getD_eq_getElem?_getD, List.getElem?_set_ne h, ← List.getD_eq_getElem?_getD]

/-- If some element of a list-with-one-replacement satisfies `p`, either some
original element does or the replacement does. -/
theorem any_set_imp (l : List Entry) (i : Nat) (x : Entry) (p : Entry → Bool)
    (h : (l.set i x).any p = true) : l.any p = true ∨ p x = true := by
  rw [List.any_eq_true] at h
  obtain ⟨a, ha, hpa⟩ := h
  cases List.mem_or_eq_of_mem_set ha with
  | inl h' => exact Or.inl (List.any_eq_true.mpr ⟨a, h', hpa⟩)
  | inr h' => exact Or.inr (h' ▸ hpa)

/-- The re-insertion loop of `resize_table`, run on a tombstone-free,
consistently counted table with enough headroom, re-inserts every live entry
of `rem` (keys pairwise distinct and absent from the table): it succeeds, adds
exactly `live_count rem` to `size`, creates no tombstones, and introduces only
keys of `rem`. -/
theorem reinsert_rebuild (fuel : Nat) (orig : List Entry) :
    ∀ (rem : List Entry) (t1 : Table),
    0 < capacity t1 →
    capacity t1 < 9223372036854775808 →
    t1.tombstones = 0 →
    occ_count t1.entries = t1.size →
    (∀ j, j < capacity t1 → (entryAt t1 j).occupied = true →
      (entryAt t1 j).key ≠ DELETED_KEY) →
    4 * (t1.size + live_count rem) < 3 * capacity t1 →
    (∀ e ∈ rem, is_live e = true → live_has t1 e.key = false) →
    List.Pairwise (fun a b => is_live a = true → is_live b = true → a.key ≠ b.key) rem →
    ∃ t2, reinsert_go (ht_setF (fuel + 1)) orig rem t1 [] = (true, t2, none, []) ∧
      capacity t2 = capacity t1 ∧
      t2.tombstones = 0 ∧
      t2.size = t1.size + live_count rem ∧
      occ_count t2.entries = t2.size ∧
      (∀ j, j < capacity t2 → (entryAt t2 j).occupied = true →
        (entryAt t2 j).key ≠ DELETED_KEY) ∧
      (∀ k', live_has t2 k' = true → live_has t1 k' = true ∨
        ∃ e ∈ rem, is_live e = true ∧ e.key = k') := by
  intro rem
  induction rem with
  | nil =>
    intro t1 hC hC2 htmb hocc hnotomb hgate _ _
    refine ⟨t1, rfl, rfl, htmb, ?_, hocc, hnotomb, fun k' h => Or.inl h⟩
    simp [live_count]
  | cons e rest ih =>
    intro t1 hC hC2 htmb hocc hnotomb hgate hfresh hpw
    obtain ⟨hpwhead, hpwtail⟩ := List.pairwise_cons.mp hpw
    by_cases hlv : (e.occupied && !(e.key == DELETED_KEY)) = true
    · have hlv' : is_live e = true := hlv
      have hk : e.key ≠ DELETED_KEY := ((is_live_iff e).mp hlv').2
      have hlc : live_count (e :: rest) = live_count rest + 1 := by
        rw [live_count, live_count, List.countP_cons, hlv']
        simp
      obtain ⟨i, hiC, hiE, hset⟩ := ht_setF_fresh_insert fuel t1 e.key (e.value.getD [])
        hk hC hC2 htmb hocc hnotomb (by omega)
        (hfresh e (List.mem_cons_self _ _) hlv')
      rw [reinsert_go, if_pos hlv, hset]
      have hcap' : capacity
          { entries := t1.entries.set i ⟨e.key, some (cstr (e.value.getD [])), true⟩
            size := t1.size + 1, tombstones := 0 } = capacity t1 := by
        simp [capacity]
      obtain ⟨t2, hrun, h1, h2, h3, h4, h5, h6⟩ := ih
        { entries := t1.entries.set i ⟨e.key, some (cstr (e.value.getD [])), true⟩
          size := t1.size + 1, tombstones := 0 }
        (by rw [hcap']; exact hC) (by rw [hcap']; exact hC2) rfl
        (by
          have hbal := countP_set_balance (·.occupied) t1.entries i
            ⟨e.key, some (cstr (e.value.getD [])), true⟩ emptyEntry
            (by rw [← capacity]; exact hiC)
          simp only [show t1.entries.getD i emptyEntry = entryAt t1 i from rfl, hiE] at hbal
          simp at hbal
          show occ_count (t1.entries.set i ⟨e.key, some (cstr (e.value.getD [])), true⟩) =
            t1.size + 1
          simp only [occ_count] at hocc ⊢
          omega)
        (by
          intro j hj hjo
          rw [hcap'] at hj
          by_cases hji : i = j
          · subst hji
            rw [show entryAt
                { entries := t1.entries.set i ⟨e.key, some (cstr (e.value.getD [])), true⟩
                  size := t1.size + 1, tombstones := 0 } i =
                (⟨e.key, some (cstr (e.value.getD [])), true⟩ : Entry) from
              getD_set_self t1.entries i _ emptyEntry (by rw [← capacity]; exact hiC)]
            exact hk
          · rw [show entryAt
                { entries := t1.entries.set i ⟨e.key, some (cstr (e.value.getD [])), true⟩
                  size := t1.size + 1, tombstones := 0 } j = entryAt t1 j from
              getD_set_ne t1.entries i j _ emptyEntry hji] at hjo ⊢
            exact hnotomb j hj hjo)
        (by
          show 4 * (t1.size + 1 + live_count rest) < 3 * capacity
            { entries := t1.entries.set i ⟨e.key, some (cstr (e.value.getD [])), true⟩
              size := t1.size + 1, tombstones := 0 }
          rw [hcap']
          omega)
        (by
          intro e' he' hle'
          cases hb : live_has
              { entries := t1.entries.set i ⟨e.key, some (cstr (e.value.getD [])), true⟩
                size := t1.size + 1, tombstones := 0 } e'.key
          · rfl
          · exfalso
            rw [live_has] at hb
            cases any_set_imp t1.entries i _ _ hb with
            | inl h' =>
              have := hfresh e' (List.mem_cons_of_mem _ he') hle'
              rw [live_has] at this
              rw [this] at h'
              exact Bool.noConfusion h'
            | inr h' =>
              have hkey : e.key = e'.key := by
                have hx : is_live (⟨e.key, some (cstr (e.value.getD [])), true⟩ : Entry)
                    = true := (is_live_iff _).mpr ⟨rfl, hk⟩
                simpa [hx] using h'
              exact hpwhead e' he' hlv' hle' hkey)
        hpwtail
      refine ⟨t2, hrun, by rw [h1, hcap'], h2, by rw [h3]; simp only []; omega, h4, h5, ?_⟩
      intro k' hk'
      cases h6 k' hk' with
      | inl h' =>
        rw [live_has] at h'
        cases any_set_imp t1.entries i _ _ h' with
        | inl h'' => exact Or.inl h''
        | inr h'' =>
          have hkey : e.key = k' := by
            have hx : is_live (⟨e.key, some (cstr (e.value.getD [])), true⟩ : Entry)
                = true := (is_live_iff _).mpr ⟨rfl, hk⟩
            simpa [hx] using h''
          exact Or.inr ⟨e, List.mem_cons_self _ _, hlv', hkey⟩
      | inr h' =>
        obtain ⟨e', he', hle', hke'⟩ := h'
        exact Or.inr ⟨e', List.mem_cons_of_mem _ he', hle', hke'⟩
    · have hlv' : is_live e = false := eq_false_of_ne_true hlv
      have hlc : live_count (e :: rest) = live_count rest := by
        rw [live_count, live_count, List.countP_cons, hlv']
        simp
      rw [reinsert_go, if_neg hlv]
      obtain ⟨t2, hrun, h1, h2, h3, h4, h5, h6⟩ := ih t1 hC hC2 htmb hocc hnotomb
        (by omega) (fun e' he' => hfresh e' (List.mem_cons_of_mem _ he')) hpwtail
      refine ⟨t2, hrun, h1, h2, by omega, h4, h5, ?_⟩
      intro k' hk'
      cases h6 k' hk' with
      | inl h' => exact Or.inl h'
      | inr h' =>
        obtain ⟨e', he', hle', hke'⟩ := h'
        exact Or.inr ⟨e', List.mem_cons_of_mem _ he', hle', hke'⟩

/-- `resize_table` on a table with pairwise-distinct live keys rebuilds into a
fresh double-capacity array: it succeeds and the result has no tombstones,
`size` equal to the number of live entries, consistent occupancy count, and
only keys that were live before. -/
theorem resize_rebuild (fuel : Nat) (t : Table)
    (hC : 0 < capacity t) (hC2 : capacity t < 4611686018427387904)
    (hnodup : List.Pairwise (fun a b => is_live a = true → is_live b = true →
      a.key ≠ b.key) t.entries) :
    ∃ t2, resize_table_go (ht_setF (fuel + 1)) t (capacity t * GROWTH_FACTOR % U64) [] =
        (true, t2, none, []) ∧
      capacity t2 = 2 * capacity t ∧
      t2.tombstones = 0 ∧
      t2.size = live_count t.entries ∧
      occ_count t2.entries = t2.size ∧
      (∀ j, j < capacity t2 → (entryAt t2 j).occupied = true →
        (entryAt t2 j).key ≠ DELETED_KEY) ∧
      (∀ k', live_has t2 k' = true → live_has t k' = true) := by
  have hg : capacity t * GROWTH_FACTOR % U64 = 2 * capacity t := by
    rw [GROWTH_FACTOR, U64_eq]
    omega
  have hred : resize_table_go (ht_setF (fuel + 1)) t (capacity t * GROWTH_FACTOR % U64) [] =
      reinsert_go (ht_setF (fuel + 1)) t.entries t.entries
        { entries := List.replicate (capacity t * GROWTH_FACTOR % U64) emptyEntry
          size := 0, tombstones := 0 } [] := by
    rw [resize_table_go,
      if_neg (show ¬(capacity t * GROWTH_FACTOR % U64 ≤ capacity t) by rw [hg]; omega)]
    rfl
  have hcapf : capacity
      { entries := List.replicate (capacity t * GROWTH_FACTOR % U64) emptyEntry
        size := 0, tombstones := 0 } = 2 * capacity t := by
    rw [capacity]
    simp only [List.length_replicate]
    exact hg
  have hentf : ∀ j, entryAt
      { entries := List.replicate (capacity t * GROWTH_FACTOR % U64) emptyEntry
        size := 0, tombstones := 0 } j = emptyEntry := by
    intro j
    rw [entryAt, List.getD_eq_getElem?_getD, List.getElem?_replicate]
    split <;> rfl
  have hlhf : ∀ k', live_has
      { entries := List.replicate (capacity t * GROWTH_FACTOR % U64) emptyEntry
        size := 0, tombstones := 0 } k' = false := by
    intro k'
    cases hb : live_has
        { entries := List.replicate (capacity t * GROWTH_FACTOR % U64) emptyEntry
          size := 0, tombstones := 0 } k'
    · rfl
    · exfalso
      rw [live_has, List.any_eq_true] at hb
      obtain ⟨a, ha, hpa⟩ := hb
      rw [List.eq_of_mem_replicate ha] at hpa
      simp [is_live, emptyEntry] at hpa
  have hlcle : live_count t.entries ≤ capacity t := by
    rw [capacity, live_count]
    exact List.countP_le_length is_live
  obtain ⟨t2, hrun, h1, h2, h3, h4, h5, h6⟩ := reinsert_rebuild fuel t.entries t.entries
    { entries := List.replicate (capacity t * GROWTH_FACTOR % U64) emptyEntry
      size := 0, tombstones := 0 }
    (by rw [hcapf]; omega) (by rw [hcapf]; omega) rfl
    (by
      show occ_count (List.replicate (capacity t * GROWTH_FACTOR % U64) emptyEntry) = 0
      rw [occ_count, List.countP_replicate]
      simp [emptyEntry])
    (by
      intro j _ hjo
      rw [hentf j] at hjo
      exact absurd hjo (by simp [emptyEntry]))
    (by
      show 4 * (0 + live_count t.entries) < 3 * capacity
        { entries := List.replicate (capacity t * GROWTH_FACTOR % U64) emptyEntry
          size := 0, tombstones := 0 }
      rw [hcapf]
      omega)
    (fun e _ _ => hlhf e.key)
    hnodup
  refine ⟨t2, by rw [hred]; exact hrun, by rw [h1, hcapf], h2, ?_, h4, h5, ?_⟩
  · rw [h3]
    show 0 + live_count t.entries = live_count t.entries
    omega
  intro k' hk'
  cases h6 k' hk' with
  | inl h' =>
    rw [hlhf k'] at h'
    exact Bool.noConfusion h'
  | inr h' =>
    obtain ⟨e, he, hle, hke⟩ := h'
    rw [live_has, List.any_eq_true]
    exact ⟨e, he, by simp [hle, hke]⟩

/-- `ht_place` for a key with no live occurrence, in a table with consistent
occupancy count, free room and no tombstones: the key lands in an empty slot,
`size` steps up, `tombstones` is unchanged. -/
theorem ht_place_fresh (t1 : Table) (k : Int) (v : List Nat)
    (hk : k ≠ DELETED_KEY) (hC : 0 < capacity t1)
    (hocc : occ_count t1.entries = t1.size)
    (hroom : t1.size < capacity t1)
    (hnotomb : ∀ j, j < capacity t1 → (entryAt t1 j).occupied = true →
      (entryAt t1 j).key ≠ DELETED_KEY)
    (hfresh : live_has t1 k = false) :
    ∃ i, i < capacity t1 ∧ (entryAt t1 i).occupied = false ∧
      ht_place t1 k v [] =
        (true,
         { entries := t1.entries.set i ⟨k, some (cstr v), true⟩
           size := (t1.size + 1) % U64
           tombstones := t1.tombstones }, none, []) := by
  obtain ⟨i0, hfs⟩ := find_slot_insert_some t1 k hC (exists_unoccupied t1 (by omega))
  have hfs' := hfs
  rw [find_slot, if_neg (by omega)] at hfs'
  obtain ⟨hiC, hcases⟩ := find_slot_aux_insert_cases t1 k (capacity t1)
    (hash_key k % capacity t1) none i0 (Nat.mod_lt _ hC) (Or.inl rfl) hfs'
  have hempty : (entryAt t1 i0).occupied = false := by
    cases hcases with
    | inl h => exact h
    | inr h =>
      cases h with
      | inl h => exact absurd h.2 (hnotomb i0 hiC h.1)
      | inr h =>
        exfalso
        have hlive : is_live (entryAt t1 i0) = true :=
          (is_live_iff _).mpr ⟨h.1, by rw [h.2]; exact hk⟩
        have hhas : live_has t1 k = true := by
          rw [live_has, List.any_eq_true]
          exact ⟨entryAt t1 i0, entryAt_mem t1 i0 hiC, by simp [hlive, h.2]⟩
        rw [hhas] at hfresh
        exact Bool.noConfusion hfresh
  exact ⟨i0, hiC, hempty, ht_place_skip t1 k v i0 hfs (by rw [hempty]; simp)⟩

/-- C3 (amended): `ht_set` checks the current load factor
`(size + tombstones)/capacity` — without the `+1` projection — and grows first
exactly when it reaches or exceeds 0.75; consequently, immediately after every
successful insertion of a key that was not live before (a new occupied slot),
the load factor is strictly below `0.75 + 1/capacity`, i.e.
`4·(size + tombstones) < 3·capacity + 4`. -/
theorem c3_load_factor_amended (t : Table) (k : Int) (v : List Nat)
    (hcap : 0 < capacity t) (hcap2 : capacity t < 4611686018427387904)
    (hsz : t.size = live_count t.entries)
    (htmb : t.tombstones = tomb_count t.entries)
    (hnodup : List.Pairwise (fun a b => is_live a = true → is_live b = true →
      a.key ≠ b.key) t.entries)
    (hnew : live_has t k = false)
    (hsucc : (ht_set t k v).1 = true) :
    4 * ((ht_set t k v).2.1.size + (ht_set t k v).2.1.tombstones) <
      3 * capacity (ht_set t k v).2.1 + 4 := by
  have hk : k ≠ DELETED_KEY := by
    intro hkk
    rw [ht_set, ht_setF_FUEL, ht_setF_succ, if_pos (by simp [hkk])] at hsucc
    simp at hsucc
  have hkB : ¬((k == DELETED_KEY) = true) := by simp [hk]
  have hszle : t.size ≤ capacity t := by
    rw [hsz, capacity, live_count]
    exact List.countP_le_length is_live
  have htble : t.tombstones ≤ capacity t := by
    rw [htmb, capacity, tomb_count]
    exact List.countP_le_length _
  by_cases hgate : 0 < capacity t ∧ 3 * capacity t ≤ 4 * ((t.size + t.tombstones) % U64)
  · -- resize branch: the table is rebuilt at double capacity, then the key
    -- is placed into an empty slot of the rebuilt table
    obtain ⟨t2, hrz, hcapeq, htmb2, hsz2, hocc2, hnt2, htrans2⟩ :=
      resize_rebuild 62 t hcap (by omega) hnodup
    rw [show (62 : Nat) + 1 = 63 from rfl] at hrz
    have hroom2 : t2.size < capacity t2 := by
      rw [hsz2, hcapeq]
      have : live_count t.entries ≤ capacity t := by
        rw [capacity, live_count]
        exact List.countP_le_length is_live
      omega
    have hfresh2 : live_has t2 k = false := by
      cases hb : live_has t2 k
      · rfl
      · rw [htrans2 k hb] at hnew
        exact Bool.noConfusion hnew
    obtain ⟨i, hiC, hiE, hplace⟩ := ht_place_fresh t2 k v hk (by omega) hocc2 hroom2
      hnt2 hfresh2
    have hset_eq : ht_set t k v =
        (true,
         { entries := t2.entries.set i ⟨k, some (cstr v), true⟩
           size := (t2.size + 1) % U64
           tombstones := t2.tombstones }, none) := by
      rw [ht_set, ht_setF_FUEL, ht_setF_succ, if_neg hkB, if_pos hgate, hrz]
      simp only []
      rw [hplace]
    rw [hset_eq]
    show 4 * ((t2.size + 1) % U64 + t2.tombstones) <
      3 * (t2.entries.set i ⟨k, some (cstr v), true⟩).length + 4
    rw [List.length_set, htmb2, ← capacity, hcapeq,
      Nat.mod_eq_of_lt (show t2.size + 1 < U64 by rw [U64_eq]; omega)]
    omega
  · -- no-resize branch: placement straight into the current table
    have hmod : (t.size + t.tombstones) % U64 = t.size + t.tombstones :=
      Nat.mod_eq_of_lt (by rw [U64_eq]; omega)
    have hlt : 4 * (t.size + t.tombstones) < 3 * capacity t := by
      rcases Nat.lt_or_ge (4 * ((t.size + t.tombstones) % U64)) (3 * capacity t) with h | h
      · rwa [hmod] at h
      · exact absurd ⟨hcap, h⟩ hgate
    cases hfs : find_slot t k true with
    | none =>
      exfalso
      rw [ht_set, ht_setF_FUEL, ht_setF_succ, if_neg hkB, if_neg hgate, ht_place, hfs]
        at hsucc
      simp at hsucc
    | some i =>
      have hfs' := hfs
      rw [find_slot, if_neg (by omega)] at hfs'
      obtain ⟨hiC, hcases⟩ := find_slot_aux_insert_cases t k (capacity t)
        (hash_key k % capacity t) none i (Nat.mod_lt _ hcap) (Or.inl rfl) hfs'
      have hcond : ((entryAt t i).occupied && (entryAt t i).key == k &&
          !((entryAt t i).key == DELETED_KEY)) = false := by
        cases hcases with
        | inl h => simp [h]
        | inr h =>
          cases h with
          | inl h => simp [h.2]
          | inr h =>
            exfalso
            have hlive : is_live (entryAt t i) = true :=
              (is_live_iff _).mpr ⟨h.1, by rw [h.2]; exact hk⟩
            have hhas : live_has t k = true := by
              rw [live_has, List.any_eq_true]
              exact ⟨entryAt t i, entryAt_mem t i hiC, by simp [hlive, h.2]⟩
            rw [hhas] at hnew
            exact Bool.noConfusion hnew
      have hset_eq : ht_set t k v =
          (true,
           { entries := t.entries.set i ⟨k, some (cstr v), true⟩
             size := (t.size + 1) % U64
             tombstones := t.tombstones }, none) := by
        rw [ht_set, ht_setF_FUEL, ht_setF_succ, if_neg hkB, if_neg hgate,
          ht_place_skip t k v i hfs hcond]
      rw [hset_eq]
      show 4 * ((t.size + 1) % U64 + t.tombstones) <
        3 * (t.entries.set i ⟨k, some (cstr v), true⟩).length + 4
      rw [List.length_set, ← capacity,
        Nat.mod_eq_of_lt (show t.size + 1 < U64 by rw [U64_eq]; omega)]
      omega

/-- Witness for the amended C3 at a concrete table: inserting the fresh key 7
into the capacity-4 table holding keys 1, 2, 3 (load 3/4) grows the table and
the resulting load factor is below 0.75 + 1/capacity. -/
theorem c3_witness :
    4 * ((ht_set c3w3.2.1 7 (strBytes ("d"))).2.1.size +
      (ht_set c3w3.2.1 7 (strBytes ("d"))).2.1.tombstones) <
      3 * capacity (ht_set c3w3.2.1 7 (strBytes ("d"))).2.1 + 4 :=
  c3_load_factor_amended c3w3.2.1 7 (strBytes ("d")) (by decide) (by decide)
    (by decide) (by decide) (by decide) (by decide) (by decide)
